import Mathlib

/-!
Shallow embedding of `jsongo` (src/jsongo.go), a dynamic JSON tree builder.

Modelling conventions:
* JSON text handled by the external `encoding/json` collaborator is embedded
  at the level of a parsed JSON value AST (`Json`): the raw bytes passed to
  `UnmarshalJSON` are represented by the `Json` value they parse to, the byte
  check `data[0] == '{'` (resp. `'['`) becomes "the AST is an object (resp.
  array)", and the generic decode `json.Unmarshal(data, &tmp)` into an
  `interface{}` is the identity on the AST.  The `len(data) == 0` early
  return concerns unparsable empty byte input and is outside the AST.
* Go's `map[string]*JSONNode` is an association list with unique keys; a nil
  map is the empty list (in every reachable state the map is nil exactly
  when it is empty, since `atMap`/`Map` insert a key right after `make`).
* Go's nil slice is the empty list.
* The scalar payload `v interface{}` is a `Json` value (zero value: `null`).
* Go panics and returned errors both abort with mutations made so far kept;
  we distinguish them as `Failure.panicF` / `Failure.errF`.
* A `*JSONNode` return value (a live pointer into the tree) is embedded by
  returning the updated whole tree together with the value of the pointed-to
  node; callers that write through the pointer are embedded with an explicit
  write-back into the parent.

Error sentinel mapping (spec name = Go variable = constructor):
  KindConflict        = ErrorMultipleType       = .multipleType
  KeyAlreadyExists    = ErrorKeyAlreadyExist    = .keyAlreadyExist
  NegativeIndex/Size  = ErrorArrayNegativeValue = .arrayNegativeValue
  UnsupportedStepType = ErrorAtUnsupportedType  = .atUnsupportedType
  NotAValue           = ErrorRetrieveUserValue  = .retrieveUserValue
  TypeMismatch        = ErrorTypeUnmarshaling   = .typeUnmarshaling
-/

/-- Parsed JSON document / generic decoded value (`interface{}` after
`json.Unmarshal`): null, bool, number, string, array, object. -/
inductive Json where
  | null : Json
  | bool (b : Bool) : Json
  | num (n : Int) : Json
  | str (s : String) : Json
  | arr (elems : List Json) : Json
  | obj (fields : List (String × Json)) : Json

/-- The four node kinds (`jsonNodeType`). -/
inductive NodeType where
  | typeUndefined : NodeType
  | typeMap : NodeType
  | typeArray : NodeType
  | typeValue : NodeType
deriving DecidableEq, Repr

/-- The Go error sentinels of the package. -/
inductive GoError where
  | keyAlreadyExist : GoError
  | multipleType : GoError
  | arrayNegativeValue : GoError
  | atUnsupportedType : GoError
  | retrieveUserValue : GoError
  | typeUnmarshaling : GoError
deriving DecidableEq, Repr

/-- How an operation failed: a Go `panic(e)` or a returned error `e`. -/
inductive Failure where
  | panicF (e : GoError) : Failure
  | errF (e : GoError) : Failure
deriving DecidableEq, Repr

/-- `JSONNode`: map payload, array payload, scalar payload, kind tag,
`dontGenerate` flag — the five fields of the Go struct. -/
inductive JSONNode where
  | mk (m : List (String × JSONNode)) (a : List JSONNode)
      (v : Json) (t : NodeType) (dontGenerate : Bool) : JSONNode

namespace JSONNode

def m : JSONNode → List (String × JSONNode)
  | .mk m _ _ _ _ => m

def a : JSONNode → List JSONNode
  | .mk _ a _ _ _ => a

def v : JSONNode → Json
  | .mk _ _ v _ _ => v

def t : JSONNode → NodeType
  | .mk _ _ _ t _ => t

def dontGenerate : JSONNode → Bool
  | .mk _ _ _ _ dg => dg

/-- Field update helpers (Go mutates fields in place). -/
def setM : JSONNode → List (String × JSONNode) → JSONNode
  | .mk _ a v t dg, m => .mk m a v t dg

def setA : JSONNode → List JSONNode → JSONNode
  | .mk m _ v t dg, a => .mk m a v t dg

def setV : JSONNode → Json → JSONNode
  | .mk m a _ t dg, v => .mk m a v t dg

def setT : JSONNode → NodeType → JSONNode
  | .mk m a v _ dg, t => .mk m a v t dg

end JSONNode

/-- The zero value `JSONNode{}`: a fresh Undefined node. -/
def emptyNode : JSONNode := .mk [] [] .null .typeUndefined false

/-- Lookup in the association list embedding of `that.m` (`that.m[key]`). -/
def lookupM : List (String × JSONNode) → String → Option JSONNode
  | [], _ => none
  | (k, c) :: rest, key => if k = key then some c else lookupM rest key

/-- Replace the binding of `key` (`that.m[key] = c` on an existing key). -/
def updateM : List (String × JSONNode) → String → JSONNode → List (String × JSONNode)
  | [], _, _ => []
  | (k, c) :: rest, key, c' =>
      if k = key then (k, c') :: rest else (k, c) :: updateM rest key c'

/-- A path step passed to `At`: a string key, an int index, or any other
type of argument (which `At` rejects). -/
inductive Step where
  | str (s : String) : Step
  | idx (i : Int) : Step
  | other : Step
deriving DecidableEq, Repr

mutual

/-- `At(val ...interface{}) *JSONNode` (src/jsongo.go:61-72): navigate,
building nodes on the fly.  Returns the updated tree and, on success, the
leaf node the returned pointer refers to. -/
def At : JSONNode → List Step → JSONNode × Except Failure JSONNode
  | n, [] => (n, .ok n)
  | n, .str s :: rest => atMap n s rest
  | n, .idx i :: rest => atArray n i rest
  | n, .other :: _ => (n, .error (.panicF .atUnsupportedType))

/-- `atMap` (src/jsongo.go:75-88). -/
def atMap (n : JSONNode) (key : String) (rest : List Step) :
    JSONNode × Except Failure JSONNode :=
  if n.t ≠ .typeUndefined ∧ n.t ≠ .typeMap then
    (n, .error (.panicF .multipleType))
  else
    -- `if that.m == nil { that.m = make(...); that.t = TypeMap }`
    let n₁ := if n.m.isEmpty then n.setT .typeMap else n
    match lookupM n₁.m key with
    | some next =>
        let r := At next rest
        (n₁.setM (updateM n₁.m key r.1), r.2)
    | none =>
        -- `that.m[key] = new(JSONNode); return that.m[key].At(val...)`
        let r := At emptyNode rest
        (n₁.setM (n₁.m ++ [(key, r.1)]), r.2)

/-- `atArray` (src/jsongo.go:91-108).  Note the kind is committed to
`TypeArray` *before* the negative-index check. -/
def atArray (n : JSONNode) (key : Int) (rest : List Step) :
    JSONNode × Except Failure JSONNode :=
  if n.t = .typeUndefined ∨ n.t = .typeArray then
    let n₁ := if n.t = .typeUndefined then n.setT .typeArray else n
    if key < 0 then (n₁, .error (.panicF .arrayNegativeValue))
    else
      let k := key.toNat
      -- `if key >= len(that.a) { newa := make([]JSONNode, key+1); copy }`
      let n₂ := if n₁.a.length ≤ k then
          n₁.setA (n₁.a ++ List.replicate (k + 1 - n₁.a.length) emptyNode)
        else n₁
      let r := At (n₂.a.getD k emptyNode) rest
      (n₂.setA (n₂.a.set k r.1), r.2)
  else
    (n, .error (.panicF .multipleType))

end

/-- Size helper for termination: the node of a map entry is smaller than
the entry. -/
theorem sizeOf_snd_lt_pair (p : String × JSONNode) : sizeOf p.2 < sizeOf p := by
  obtain ⟨k, c⟩ := p
  simp only [Prod.mk.sizeOf_spec]
  simp

namespace JSONNode

/-- `Map(key string) *JSONNode` (src/jsongo.go:111-124): turn the node into
a map and create a brand-new child for `key`; strict on key collision. -/
def Map (n : JSONNode) (key : String) : JSONNode × Except Failure JSONNode :=
  if n.t ≠ .typeUndefined ∧ n.t ≠ .typeMap then
    (n, .error (.panicF .multipleType))
  else
    let n₁ := if n.m.isEmpty then n.setT .typeMap else n
    if (lookupM n₁.m key).isSome then
      (n₁, .error (.panicF .keyAlreadyExist))
    else
      (n₁.setM (n₁.m ++ [(key, emptyNode)]), .ok emptyNode)

/-- `Array(size int) *[]JSONNode` (src/jsongo.go:127-148): turn the node
into an array of exactly `size` elements.  NOTE: the copy bound is
`len(that.m)` in the source — the map, not the array — embedded faithfully. -/
def Array (n : JSONNode) (size : Int) : JSONNode × Except Failure Unit :=
  if n.t = .typeUndefined ∨ n.t = .typeArray then
    let n₁ := if n.t = .typeUndefined then n.setT .typeArray else n
    if size < 0 then (n₁, .error (.panicF .arrayNegativeValue))
    else
      -- `if size < len(that.m) { min = size } else { min = len(that.m) }`
      let min : Int := if size < (n₁.m.length : Int) then size else (n₁.m.length : Int)
      -- `newa := make([]JSONNode, size); for i := 0; i < min; i++ { newa[i] = that.a[i] }`
      let newa := (List.range size.toNat).map fun (i : Nat) =>
        if (i : Int) < min then n₁.a.getD i emptyNode else emptyNode
      (n₁.setA newa, .ok ())
  else
    (n, .error (.panicF .multipleType))

/-- `Val(val interface{})` (src/jsongo.go:151-158): turn the node into a
value node and set the payload (unconditional overwrite for Value nodes). -/
def Val (n : JSONNode) (val : Json) : JSONNode × Except Failure Unit :=
  if n.t = .typeUndefined then
    ((n.setT .typeValue).setV val, .ok ())
  else if n.t ≠ .typeValue then
    (n, .error (.panicF .multipleType))
  else
    (n.setV val, .ok ())

/-- `Get() interface{}` (src/jsongo.go:161-166): return the scalar payload;
read-only, so no state is returned. -/
def Get (n : JSONNode) : Except Failure Json :=
  if n.t ≠ .typeValue then .error (.panicF .retrieveUserValue)
  else .ok n.v

/-- `Unset()` (src/jsongo.go:169-171): `*that = JSONNode{}`. -/
def Unset (_ : JSONNode) : JSONNode := emptyNode

/-- `UnmarshalDontGenerate(val, recurse bool)` (src/jsongo.go:176-190):
set the `dontGenerate` flag, optionally recursing into all children. -/
def UnmarshalDontGenerate : JSONNode → Bool → Bool → JSONNode
  | .mk m a v t _, val, recurse =>
    if recurse then
      match t with
      | .typeMap =>
          .mk (m.attach.map fun x => (x.1.1, UnmarshalDontGenerate x.1.2 val recurse)) a v t val
      | .typeArray =>
          .mk m (a.attach.map fun x => UnmarshalDontGenerate x.1 val recurse) v t val
      | _ => .mk m a v t val
    else .mk m a v t val
termination_by n _ _ => sizeOf n
decreasing_by
  all_goals
    have h1 := List.sizeOf_lt_of_mem x.2
    simp only [JSONNode.mk.sizeOf_spec]
    first
      | (have h2 := sizeOf_snd_lt_pair x.1; omega)
      | omega

end JSONNode

@[simp] theorem m_mk (m a v t dg) : (JSONNode.mk m a v t dg).m = m := rfl

@[simp] theorem a_mk (m a v t dg) : (JSONNode.mk m a v t dg).a = a := rfl

@[simp] theorem v_mk (m a v t dg) : (JSONNode.mk m a v t dg).v = v := rfl

@[simp] theorem t_mk (m a v t dg) : (JSONNode.mk m a v t dg).t = t := rfl

@[simp] theorem dg_mk (m a v t dg) : (JSONNode.mk m a v t dg).dontGenerate = dg := rfl

@[simp] theorem setM_mk (m a v t dg m') :
    (JSONNode.mk m a v t dg).setM m' = .mk m' a v t dg := rfl

@[simp] theorem setA_mk (m a v t dg a') :
    (JSONNode.mk m a v t dg).setA a' = .mk m a' v t dg := rfl

@[simp] theorem setV_mk (m a v t dg v') :
    (JSONNode.mk m a v t dg).setV v' = .mk m a v' t dg := rfl

@[simp] theorem setT_mk (m a v t dg t') :
    (JSONNode.mk m a v t dg).setT t' = .mk m a v t' dg := rfl

@[simp] theorem t_setM (n : JSONNode) (m') : (n.setM m').t = n.t := by cases n <;> rfl

@[simp] theorem t_setA (n : JSONNode) (a') : (n.setA a').t = n.t := by cases n <;> rfl

@[simp] theorem t_setV (n : JSONNode) (v') : (n.setV v').t = n.t := by cases n <;> rfl

@[simp] theorem t_setT (n : JSONNode) (t') : (n.setT t').t = t' := by cases n <;> rfl

@[simp] theorem m_setM (n : JSONNode) (m') : (n.setM m').m = m' := by cases n <;> rfl

@[simp] theorem a_setA (n : JSONNode) (a') : (n.setA a').a = a' := by cases n <;> rfl

@[simp] theorem v_setV (n : JSONNode) (v') : (n.setV v').v = v' := by cases n <;> rfl

@[simp] theorem m_setT (n : JSONNode) (t') : (n.setT t').m = n.m := by cases n <;> rfl

@[simp] theorem a_setT (n : JSONNode) (t') : (n.setT t').a = n.a := by cases n <;> rfl

@[simp] theorem v_setT (n : JSONNode) (t') : (n.setT t').v = n.v := by cases n <;> rfl

@[simp] theorem dg_setT (n : JSONNode) (t') :
    (n.setT t').dontGenerate = n.dontGenerate := by cases n <;> rfl

@[simp] theorem dg_setM (n : JSONNode) (m') :
    (n.setM m').dontGenerate = n.dontGenerate := by cases n <;> rfl

@[simp] theorem dg_setA (n : JSONNode) (a') :
    (n.setA a').dontGenerate = n.dontGenerate := by cases n <;> rfl

@[simp] theorem dg_setV (n : JSONNode) (v') :
    (n.setV v').dontGenerate = n.dontGenerate := by cases n <;> rfl

@[simp] theorem a_setM (n : JSONNode) (m') : (n.setM m').a = n.a := by cases n <;> rfl

@[simp] theorem m_setA (n : JSONNode) (a') : (n.setA a').m = n.m := by cases n <;> rfl

@[simp] theorem v_setM (n : JSONNode) (m') : (n.setM m').v = n.v := by cases n <;> rfl

@[simp] theorem v_setA (n : JSONNode) (a') : (n.setA a').v = n.v := by cases n <;> rfl

@[simp] theorem m_setV (n : JSONNode) (v') : (n.setV v').m = n.m := by cases n <;> rfl

@[simp] theorem a_setV (n : JSONNode) (v') : (n.setV v').a = n.a := by cases n <;> rfl

@[simp] theorem setA_self (n : JSONNode) : n.setA n.a = n := by cases n <;> rfl

@[simp] theorem setM_self (n : JSONNode) : n.setM n.m = n := by cases n <;> rfl

@[simp] theorem setA_setA (n : JSONNode) (a₁ a₂) :
    (n.setA a₁).setA a₂ = n.setA a₂ := by cases n <;> rfl

@[simp] theorem setM_setM (n : JSONNode) (m₁ m₂) :
    (n.setM m₁).setM m₂ = n.setM m₂ := by cases n <;> rfl

/-- Looking a key up after replacing its binding finds the new value. -/
theorem lookupM_updateM (m : List (String × JSONNode)) (k : String) (c d : JSONNode)
    (h : lookupM m k = some d) : lookupM (updateM m k c) k = some c := by
  induction m with
  | nil => simp [lookupM] at h
  | cons p rest ih =>
    obtain ⟨k', c'⟩ := p
    by_cases hk : k' = k
    · simp [lookupM, updateM, hk]
    · simp [lookupM, updateM, hk] at h ⊢
      exact ih h

/-- Replacing a binding by the value it already holds is the identity. -/
theorem updateM_self (m : List (String × JSONNode)) (k : String) (c : JSONNode)
    (h : lookupM m k = some c) : updateM m k c = m := by
  induction m with
  | nil => simp [lookupM] at h
  | cons p rest ih =>
    obtain ⟨k', c'⟩ := p
    by_cases hk : k' = k
    · simp [lookupM, hk] at h
      simp [updateM, hk, h]
    · simp [lookupM, hk] at h
      simp [updateM, hk, ih h]

/-- Looking up a key that was just appended to a map without it. -/
theorem lookupM_append (m : List (String × JSONNode)) (k : String) (c : JSONNode)
    (h : lookupM m k = none) : lookupM (m ++ [(k, c)]) k = some c := by
  induction m with
  | nil => simp [lookupM]
  | cons p rest ih =>
    obtain ⟨k', c'⟩ := p
    by_cases hk : k' = k
    · simp [lookupM, hk] at h
    · simp [lookupM, hk] at h ⊢
      exact ih h

/-- Replacing the binding of a freshly appended key. -/
theorem updateM_append (m : List (String × JSONNode)) (k : String) (c d : JSONNode)
    (h : lookupM m k = none) : updateM (m ++ [(k, c)]) k d = m ++ [(k, d)] := by
  induction m with
  | nil => simp [updateM]
  | cons p rest ih =>
    obtain ⟨k', c'⟩ := p
    by_cases hk : k' = k
    · simp [lookupM, hk] at h
    · simp [lookupM, hk] at h
      simp [updateM, hk, ih h]

/-- Size bound used for decode termination: an indexed element of a list of
documents is no larger than the list. -/
theorem sizeOf_getD_le (l : List Json) (i : Nat) :
    sizeOf (l[i]?.getD Json.null) ≤ sizeOf l := by
  induction l generalizing i with
  | nil => simp
  | cons a l ih =>
    cases i with
    | zero => simp; omega
    | succ i =>
      have h := ih i
      simp only [List.getElem?_cons_succ]
      simp
      omega

/-- Lexicographic decrease for the array-decode loop: recursing into the
document at index `kk` either shrinks the document size or keeps the element
list while shrinking the loop counter. -/
theorem lex_getD (elems : List Json) (kk : Nat) :
    Prod.Lex (· < ·) (· < ·) (sizeOf (elems.getD kk Json.null), 0)
      (sizeOf elems, kk + 1) := by
  rw [List.getD_eq_getElem?_getD]
  cases elems with
  | nil =>
    have h : sizeOf ((([] : List Json))[kk]?.getD Json.null) = sizeOf ([] : List Json) := by
      simp
    rw [h]
    exact Prod.Lex.right _ (by omega)
  | cons a l =>
    apply Prod.Lex.left
    cases kk with
    | zero => simp; omega
    | succ i =>
      have h := sizeOf_getD_le l i
      simp only [List.getElem?_cons_succ]
      simp
      omega

mutual

/-- `UnmarshalJSON(data []byte) error` (src/jsongo.go:213-269): the
merge-aware decode.  `j` is the parsed form of the (non-empty) input bytes;
`data[0] == '{'` / `'['` correspond to `j` being an object / array. -/
def UnmarshalJSON (n : JSONNode) (j : Json) : JSONNode × Except Failure Unit :=
  -- `if !(that.dontGenerate && that.t == TypeUndefined)`
  if n.dontGenerate = true ∧ n.t = .typeUndefined then
    JSONNode.Val n j
  else
    match j with
    | .obj fields =>
        if n.t ≠ .typeMap ∧ n.t ≠ .typeUndefined then
          (n, .error (.errF .typeUnmarshaling))
        else unmFields n fields
    | .arr elems =>
        if n.t ≠ .typeArray ∧ n.t ≠ .typeUndefined then
          (n, .error (.errF .typeUnmarshaling))
        else unmElems n elems elems.length
    | _ => JSONNode.Val n j
termination_by (sizeOf j, 0)
decreasing_by
  all_goals
    first
      | (apply Prod.Lex.left; simp; omega)
      | (apply Prod.Lex.right; omega)
      | (simp; omega)

/-- The `for k := range tmp` loop of the object branch
(src/jsongo.go:227-239), iterating the parsed fields in order. -/
def unmFields (n : JSONNode) : List (String × Json) → JSONNode × Except Failure Unit
  | [] => (n, .ok ())
  | (k, jv) :: rest =>
    match lookupM n.m k with
    | some child =>
        -- `err := json.Unmarshal(tmp[k], that.m[k])`
        let r := UnmarshalJSON child jv
        let n₁ := n.setM (updateM n.m k r.1)
        match r.2 with
        | .error f => (n₁, .error f)
        | .ok _ => unmFields n₁ rest
    | none =>
        if n.dontGenerate = false then
          -- `err := json.Unmarshal(tmp[k], that.Map(k))`
          match JSONNode.Map n k with
          | (n₁, .error f) => (n₁, .error f)
          | (n₁, .ok child) =>
            let r := UnmarshalJSON child jv
            let n₂ := n₁.setM (updateM n₁.m k r.1)
            match r.2 with
            | .error f => (n₂, .error f)
            | .ok _ => unmFields n₂ rest
        else unmFields n rest
termination_by fields => (sizeOf fields, 0)
decreasing_by
  all_goals
    first
      | (apply Prod.Lex.left; simp; omega)
      | (apply Prod.Lex.right; omega)
      | (simp; omega)

/-- The `for i := len(tmp)-1; i >= 0; i--` loop of the array branch
(src/jsongo.go:251-258); the counter argument is one past the index still
to process. -/
def unmElems (n : JSONNode) (elems : List Json) : Nat → JSONNode × Except Failure Unit
  | 0 => (n, .ok ())
  | kk + 1 =>
    -- `if !that.dontGenerate || i < len(that.a)`
    if n.dontGenerate = false ∨ kk < n.a.length then
      -- `err := json.Unmarshal(tmp[i], that.At(i))`
      match At n [.idx (Int.ofNat kk)] with
      | (n₁, .error f) => (n₁, .error f)
      | (n₁, .ok leaf) =>
        let r := UnmarshalJSON leaf (elems.getD kk .null)
        let n₂ := n₁.setA (n₁.a.set kk r.1)
        match r.2 with
        | .error f => (n₂, .error f)
        | .ok _ => unmElems n₂ elems kk
    else unmElems n elems kk
termination_by kk => (sizeOf elems, kk)
decreasing_by
  all_goals
    first
      | exact lex_getD elems kk
      | (apply Prod.Lex.right; omega)
      | (apply Prod.Lex.left; simp; omega)
      | (simp; omega)

end

namespace JSONNode

/-- `MarshalJSON() ([]byte, error)` (src/jsongo.go:193-210): render the node
as a JSON document.  `json.Marshal` of the generic payload is the identity
on the AST; marshalling never fails in the embedding (every `Json` payload
is encodable), so the result is the document itself. -/
def MarshalJSON : JSONNode → Json
  | .mk m a v t _ =>
    match t with
    | .typeMap => .obj (m.attach.map fun x => (x.1.1, MarshalJSON x.1.2))
    | .typeArray => .arr (a.attach.map fun x => MarshalJSON x.1)
    | .typeValue => v
    | .typeUndefined => .null
termination_by n => sizeOf n
decreasing_by
  all_goals
    have h1 := List.sizeOf_lt_of_mem x.2
    simp only [JSONNode.mk.sizeOf_spec]
    first
      | (have h2 := sizeOf_snd_lt_pair x.1; omega)
      | omega

end JSONNode

/-- The second component of a pair is smaller than the pair. -/
theorem sizeOf_snd_lt {α β} [SizeOf α] [SizeOf β] (p : α × β) : sizeOf p.2 < sizeOf p := by
  obtain ⟨x, y⟩ := p
  simp only [Prod.mk.sizeOf_spec]
  omega

/-- Setting a slot back to the element it already holds is the identity. -/
theorem set_getD_self {α} (l : List α) (i : Nat) (d : α) (h : i < l.length) :
    l.set i (l.getD i d) = l := by
  induction l generalizing i with
  | nil => simp at h
  | cons x tl ih =>
    cases i with
    | zero => simp
    | succ i =>
      simp only [List.length_cons, Nat.succ_lt_succ_iff] at h
      simp only [List.getD_cons_succ, List.set_cons_succ]
      rw [ih i h]

/-- Dropping up to a freshly set slot exposes the new element. -/
theorem drop_set_cons {α} (l : List α) (i : Nat) (x : α) (h : i < l.length) :
    (l.set i x).drop i = x :: l.drop (i + 1) := by
  induction l generalizing i with
  | nil => simp at h
  | cons y tl ih =>
    cases i with
    | zero => simp
    | succ i =>
      simp only [List.length_cons, Nat.succ_lt_succ_iff] at h
      simpa using ih i h

/-- Structure-driven induction for the nested `Json` type. -/
theorem jsonInduct {P : Json → Prop} (j : Json)
    (hnull : P .null) (hbool : ∀ b, P (.bool b)) (hnum : ∀ i, P (.num i))
    (hstr : ∀ s, P (.str s))
    (harr : ∀ l, (∀ x ∈ l, P x) → P (.arr l))
    (hobj : ∀ f, (∀ x ∈ f, P x.2) → P (.obj f)) : P j :=
  match j with
  | .null => hnull
  | .bool b => hbool b
  | .num i => hnum i
  | .str s => hstr s
  | .arr l => harr l fun x hx =>
      have hlt : sizeOf x < sizeOf (Json.arr l) := by
        have h1 := List.sizeOf_lt_of_mem hx
        simp only [Json.arr.sizeOf_spec]
        omega
      jsonInduct x hnull hbool hnum hstr harr hobj
  | .obj f => hobj f fun x hx =>
      have hlt : sizeOf x.2 < sizeOf (Json.obj f) := by
        have h1 := List.sizeOf_lt_of_mem hx
        have h2 := sizeOf_snd_lt x
        simp only [Json.obj.sizeOf_spec]
        omega
      jsonInduct x.2 hnull hbool hnum hstr harr hobj
termination_by sizeOf j
decreasing_by
  all_goals exact hlt

/-- Structure-driven induction for the nested `JSONNode` type. -/
theorem nodeInduct {P : JSONNode → Prop} (n : JSONNode)
    (h : ∀ m a v t dg, (∀ x ∈ m, P x.2) → (∀ c ∈ a, P c) → P (.mk m a v t dg)) : P n :=
  match n with
  | .mk m a v t dg =>
    h m a v t dg
      (fun x hx =>
        have hlt : sizeOf x.2 < sizeOf (JSONNode.mk m a v t dg) := by
          have h1 := List.sizeOf_lt_of_mem hx
          have h2 := sizeOf_snd_lt x
          simp only [JSONNode.mk.sizeOf_spec]
          omega
        nodeInduct x.2 h)
      (fun c hc =>
        have hlt : sizeOf c < sizeOf (JSONNode.mk m a v t dg) := by
          have h1 := List.sizeOf_lt_of_mem hc
          simp only [JSONNode.mk.sizeOf_spec]
          omega
        nodeInduct c h)
termination_by sizeOf n
decreasing_by
  all_goals exact hlt

/-- A scalar JSON document: one whose first significant byte is neither
`{` nor `[`. -/
def isScalar : Json → Bool
  | .obj _ => false
  | .arr _ => false
  | _ => true

mutual

/-- Structural equality test on `Json`. -/
def jsonBeq : Json → Json → Bool
  | .null, .null => true
  | .bool b₁, .bool b₂ => b₁ == b₂
  | .num n₁, .num n₂ => n₁ == n₂
  | .str s₁, .str s₂ => s₁ == s₂
  | .arr l₁, .arr l₂ => jsonBeqList l₁ l₂
  | .obj f₁, .obj f₂ => jsonBeqObj f₁ f₂
  | _, _ => false
termination_by j _ => sizeOf j

def jsonBeqList : List Json → List Json → Bool
  | [], [] => true
  | x :: l, y :: r => jsonBeq x y && jsonBeqList l r
  | _, _ => false
termination_by l _ => sizeOf l

def jsonBeqObj : List (String × Json) → List (String × Json) → Bool
  | [], [] => true
  | (k₁, v₁) :: f, (k₂, v₂) :: g => (k₁ == k₂) && jsonBeq v₁ v₂ && jsonBeqObj f g
  | _, _ => false
termination_by f _ => sizeOf f

end

/-- Pairwise-distinct keys of an object payload (the invariant Go's
`map[string]*JSONNode` provides by construction). -/
def keysNodupB : List (String × JSONNode) → Bool
  | [] => true
  | (k, _) :: rest => rest.all (fun y => !(k == y.1)) && keysNodupB rest

/-- A tree "built solely from object/array structure and scalar `Val`
assignments", fully assigned: every leaf is a Value node holding a scalar,
every object is non-empty with distinct keys (as Go maps guarantee), and
every array is non-empty. -/
def builtTree : JSONNode → Bool
  | .mk m a v t _ =>
    match t with
    | .typeValue => isScalar v
    | .typeMap => !m.isEmpty && keysNodupB m && m.attach.all fun x => builtTree x.1.2
    | .typeArray => !a.isEmpty && a.attach.all fun x => builtTree x.1
    | .typeUndefined => false
termination_by n => sizeOf n
decreasing_by
  all_goals
    have h1 := List.sizeOf_lt_of_mem x.2
    simp only [JSONNode.mk.sizeOf_spec]
    first
      | (have h2 := sizeOf_snd_lt x.1; omega)
      | omega

/-- The canonical tree a decode of this tree's encoding produces: same
shape and scalar payloads, with inactive payload fields of each node reset
to their zero values and all `dontGenerate` flags cleared. -/
def canon : JSONNode → JSONNode
  | .mk m a v t _ =>
    match t with
    | .typeMap => .mk (m.attach.map fun x => (x.1.1, canon x.1.2)) [] .null .typeMap false
    | .typeArray => .mk [] (a.attach.map fun x => canon x.1) .null .typeArray false
    | .typeValue => .mk [] [] v .typeValue false
    | .typeUndefined => emptyNode
termination_by n => sizeOf n
decreasing_by
  all_goals
    have h1 := List.sizeOf_lt_of_mem x.2
    simp only [JSONNode.mk.sizeOf_spec]
    first
      | (have h2 := sizeOf_snd_lt x.1; omega)
      | omega

/-- A zipped pair's first component is smaller than the first list. -/
theorem sizeOf_fst_zip_lt (a₁ a₂ : List JSONNode) (x : JSONNode × JSONNode)
    (h : x ∈ a₁.zip a₂) : sizeOf x.1 < sizeOf a₁ := by
  obtain ⟨p, q⟩ := x
  exact List.sizeOf_lt_of_mem (List.of_mem_zip h).1

/-- Shape equivalence in the sense of the spec's round-trip property: both
Undefined, or both Value with equal scalar payloads, or both arrays of the
same length with equivalent elements, or both objects with the same key set
and equivalent children at each key. -/
def equivShape : JSONNode → JSONNode → Bool
  | .mk m₁ a₁ v₁ t₁ _, .mk m₂ a₂ v₂ t₂ _ =>
    match t₁, t₂ with
    | .typeUndefined, .typeUndefined => true
    | .typeValue, .typeValue => jsonBeq v₁ v₂
    | .typeArray, .typeArray =>
        a₁.length == a₂.length &&
        ((a₁.zip a₂).attach.all fun x => equivShape x.1.1 x.1.2)
    | .typeMap, .typeMap =>
        (m₂.all fun y => (lookupM m₁ y.1).isSome) &&
        (m₁.attach.all fun x =>
          match lookupM m₂ x.1.1 with
          | some c₂ => equivShape x.1.2 c₂
          | none => false)
    | _, _ => false
termination_by n _ => sizeOf n
decreasing_by
  all_goals
    first
      | (have h1 := sizeOf_fst_zip_lt a₁ a₂ x.1 x.2
         simp only [JSONNode.mk.sizeOf_spec]
         omega)
      | (have h1 := List.sizeOf_lt_of_mem x.2
         have h2 := sizeOf_snd_lt x.1
         simp only [JSONNode.mk.sizeOf_spec]
         omega)

/-- C1: against the claim "Array(size) preserves existing elements at
indices < min(size, old length)", the code computes the copy bound from
`len(that.m)` — the map, which is always empty on an Array node — so the
copy loop never runs: after building the one-element array `[7]`,
`Array(1)` (old length 1, so index 0 should be preserved) resets element 0
to a fresh Undefined node. -/
theorem C1_array_resize_discards_all :
    (UnmarshalJSON emptyNode (.arr [.num 7])).2 = .ok () ∧
    (UnmarshalJSON emptyNode (.arr [.num 7])).1.t = .typeArray ∧
    (UnmarshalJSON emptyNode (.arr [.num 7])).1.a.length = 1 ∧
    ((UnmarshalJSON emptyNode (.arr [.num 7])).1.a.getD 0 emptyNode).t = .typeValue ∧
    ((UnmarshalJSON emptyNode (.arr [.num 7])).1.a.getD 0 emptyNode).v = .num 7 ∧
    (JSONNode.Array (UnmarshalJSON emptyNode (.arr [.num 7])).1 1).2 = .ok () ∧
    ((JSONNode.Array (UnmarshalJSON emptyNode (.arr [.num 7])).1 1).1.a.getD 0 emptyNode)
      = emptyNode := by
  refine ⟨?_, ?_, ?_, ?_, ?_, ?_, ?_⟩ <;>
    simp [UnmarshalJSON, unmFields, unmElems, At, atMap, atArray, JSONNode.Val, JSONNode.Array,
      emptyNode, lookupM, updateM]

/-- C2: decoding `[1,2,3]` into a fresh Undefined node succeeds and yields
an Array node of length 3 whose children are Value nodes holding 1, 2, 3
in index order; decoding the same document into an Object node fails with
`ErrorTypeUnmarshaling` and leaves the node untouched. -/
theorem C2_decode_array_shape :
    (UnmarshalJSON emptyNode (.arr [.num 1, .num 2, .num 3])).2 = .ok () ∧
    (UnmarshalJSON emptyNode (.arr [.num 1, .num 2, .num 3])).1.t = .typeArray ∧
    (UnmarshalJSON emptyNode (.arr [.num 1, .num 2, .num 3])).1.a.length = 3 ∧
    (∀ i : Nat, i < 3 →
      ((UnmarshalJSON emptyNode (.arr [.num 1, .num 2, .num 3])).1.a.getD i emptyNode).t
        = .typeValue ∧
      ((UnmarshalJSON emptyNode (.arr [.num 1, .num 2, .num 3])).1.a.getD i emptyNode).v
        = .num (i + 1)) ∧
    UnmarshalJSON (JSONNode.Map emptyNode "k").1 (.arr [.num 1, .num 2, .num 3]) =
      ((JSONNode.Map emptyNode "k").1, .error (.errF .typeUnmarshaling)) := by
  refine ⟨?_, ?_, ?_, ?_, ?_⟩
  · simp [UnmarshalJSON, unmFields, unmElems, At, atMap, atArray, JSONNode.Val, JSONNode.Array,
      JSONNode.Map, emptyNode, lookupM, updateM]
  · simp [UnmarshalJSON, unmFields, unmElems, At, atMap, atArray, JSONNode.Val, JSONNode.Array,
      JSONNode.Map, emptyNode, lookupM, updateM]
  · simp [UnmarshalJSON, unmFields, unmElems, At, atMap, atArray, JSONNode.Val, JSONNode.Array,
      JSONNode.Map, emptyNode, lookupM, updateM]
  · intro i hi
    interval_cases i <;>
      refine ⟨?_, ?_⟩ <;>
      simp [UnmarshalJSON, unmFields, unmElems, At, atMap, atArray, JSONNode.Val, JSONNode.Array,
        JSONNode.Map, emptyNode, lookupM, updateM] <;> norm_num
  · simp [UnmarshalJSON, unmFields, unmElems, At, atMap, atArray, JSONNode.Val, JSONNode.Array,
      JSONNode.Map, emptyNode, lookupM, updateM]

/-- C3: decoding `{"a":1,"b":2}` into an Object node pre-shaped with only
key `"a"` under suppressed generation (non-recursive) succeeds, fills
`"a"` with the scalar 1, and silently drops `"b"` — no child is created
for it. -/
theorem C3_template_decode_drops_new_keys :
    (UnmarshalJSON (JSONNode.UnmarshalDontGenerate (JSONNode.Map emptyNode "a").1 true false)
      (.obj [("a", .num 1), ("b", .num 2)])).2 = .ok () ∧
    ((UnmarshalJSON (JSONNode.UnmarshalDontGenerate (JSONNode.Map emptyNode "a").1 true false)
      (.obj [("a", .num 1), ("b", .num 2)])).1.m.map Prod.fst) = ["a"] ∧
    (lookupM (UnmarshalJSON
        (JSONNode.UnmarshalDontGenerate (JSONNode.Map emptyNode "a").1 true false)
      (.obj [("a", .num 1), ("b", .num 2)])).1.m "a").map JSONNode.t = some .typeValue ∧
    (lookupM (UnmarshalJSON
        (JSONNode.UnmarshalDontGenerate (JSONNode.Map emptyNode "a").1 true false)
      (.obj [("a", .num 1), ("b", .num 2)])).1.m "a").map JSONNode.v = some (.num 1) ∧
    (lookupM (UnmarshalJSON
        (JSONNode.UnmarshalDontGenerate (JSONNode.Map emptyNode "a").1 true false)
      (.obj [("a", .num 1), ("b", .num 2)])).1.m "b") = none := by
  refine ⟨?_, ?_, ?_, ?_, ?_⟩ <;>
    simp [UnmarshalJSON, unmFields, unmElems, At, atMap, atArray, JSONNode.Val,
      JSONNode.Map, JSONNode.UnmarshalDontGenerate, emptyNode, lookupM, updateM]

/-- C6: on a fresh node `Val("x")` then `Val("y")` both succeed (Value
nodes allow unconditional overwrite), `Get()` then returns `"y"`, and
`Map("k")` after `Val("x")` panics with `ErrorMultipleType`
(`KindConflict`). -/
theorem C6_val_overwrite_map_conflict :
    (JSONNode.Val emptyNode (.str "x")).2 = .ok () ∧
    (JSONNode.Val (JSONNode.Val emptyNode (.str "x")).1 (.str "y")).2 = .ok () ∧
    JSONNode.Get (JSONNode.Val (JSONNode.Val emptyNode (.str "x")).1 (.str "y")).1
      = .ok (.str "y") ∧
    (JSONNode.Map (JSONNode.Val emptyNode (.str "x")).1 "k").2
      = .error (.panicF .multipleType) := by
  refine ⟨?_, ?_, ?_, ?_⟩ <;>
    simp [JSONNode.Val, JSONNode.Get, JSONNode.Map, emptyNode, lookupM]

/-- C8: under suppressed generation, a still-Undefined node decodes ANY
document (object and array input included) without structural
interpretation: it stores the generically decoded value as its scalar
payload and becomes a Value node. -/
theorem C8_suppressed_scalar_capture (n : JSONNode) (j : Json)
    (hdg : n.dontGenerate = true) (hu : n.t = .typeUndefined) :
    UnmarshalJSON n j = ((n.setT .typeValue).setV j, .ok ()) ∧
    (UnmarshalJSON n j).1.t = .typeValue ∧
    (UnmarshalJSON n j).1.v = j := by
  have h : UnmarshalJSON n j = ((n.setT .typeValue).setV j, .ok ()) := by
    rw [UnmarshalJSON.eq_def]
    simp [JSONNode.Val, hdg, hu]
  refine ⟨h, ?_, ?_⟩ <;> rw [h] <;> simp

/-- C8 witness: a suppressed fresh node swallows `{"a":1}` as a scalar. -/
theorem C8_suppressed_scalar_capture_w :
    (JSONNode.UnmarshalDontGenerate emptyNode true false).dontGenerate = true ∧
    (JSONNode.UnmarshalDontGenerate emptyNode true false).t = .typeUndefined ∧
    (UnmarshalJSON (JSONNode.UnmarshalDontGenerate emptyNode true false)
        (.obj [("a", .num 1)]) =
      (((JSONNode.UnmarshalDontGenerate emptyNode true false).setT .typeValue).setV
        (.obj [("a", .num 1)]), .ok ()) ∧
    (UnmarshalJSON (JSONNode.UnmarshalDontGenerate emptyNode true false)
        (.obj [("a", .num 1)])).1.t = .typeValue ∧
    (UnmarshalJSON (JSONNode.UnmarshalDontGenerate emptyNode true false)
        (.obj [("a", .num 1)])).1.v = .obj [("a", .num 1)]) :=
  ⟨by simp [JSONNode.UnmarshalDontGenerate, emptyNode],
   by simp [JSONNode.UnmarshalDontGenerate, emptyNode],
   C8_suppressed_scalar_capture _ _
     (by simp [JSONNode.UnmarshalDontGenerate, emptyNode])
     (by simp [JSONNode.UnmarshalDontGenerate, emptyNode])⟩

/-- C9: `At` with a negative integer first step on an Undefined node panics
with `ErrorArrayNegativeValue`, but the failure is not atomic: the kind has
already been committed to Array, while the backing array is left as it was
(length 0 on a fresh node). -/
theorem C9_negative_index_not_atomic (n : JSONNode) (i : Int) (rest : List Step)
    (hneg : i < 0) (hu : n.t = .typeUndefined) :
    At n (.idx i :: rest) = (n.setT .typeArray, .error (.panicF .arrayNegativeValue)) ∧
    (At n (.idx i :: rest)).1.t = .typeArray ∧
    (At n (.idx i :: rest)).1.a = n.a := by
  have h : At n (.idx i :: rest) = (n.setT .typeArray, .error (.panicF .arrayNegativeValue)) := by
    rw [At, atArray]
    simp [hu, hneg]
  refine ⟨h, ?_, ?_⟩ <;> rw [h] <;> simp

/-- C9 witness: `At(-1)` on a fresh node leaves an Array of length 0. -/
theorem C9_negative_index_not_atomic_w :
    (-1 : Int) < 0 ∧ emptyNode.t = .typeUndefined ∧
    (At emptyNode [.idx (-1)] = (emptyNode.setT .typeArray,
      .error (.panicF .arrayNegativeValue)) ∧
    (At emptyNode [.idx (-1)]).1.t = .typeArray ∧
    (At emptyNode [.idx (-1)]).1.a = emptyNode.a) :=
  ⟨by norm_num, rfl, C9_negative_index_not_atomic emptyNode (-1) [] (by norm_num) rfl⟩

/-- C10: decoding a scalar document into an Object or Array node (with
generation not suppressed) is rejected through `Val`'s kind check: an
`ErrorMultipleType` (`KindConflict`) panic, not a returned `TypeMismatch`
error, and the node is not overwritten. -/
theorem C10_scalar_onto_container (n : JSONNode) (j : Json)
    (ht : n.t = .typeMap ∨ n.t = .typeArray) (hdg : n.dontGenerate = false)
    (hs : isScalar j = true) :
    UnmarshalJSON n j = (n, .error (.panicF .multipleType)) := by
  cases j with
  | obj f => simp [isScalar] at hs
  | arr l => simp [isScalar] at hs
  | null =>
    rcases ht with h | h <;> (rw [UnmarshalJSON.eq_def]; simp [JSONNode.Val, hdg, h])
  | bool b =>
    rcases ht with h | h <;> (rw [UnmarshalJSON.eq_def]; simp [JSONNode.Val, hdg, h])
  | num i =>
    rcases ht with h | h <;> (rw [UnmarshalJSON.eq_def]; simp [JSONNode.Val, hdg, h])
  | str s =>
    rcases ht with h | h <;> (rw [UnmarshalJSON.eq_def]; simp [JSONNode.Val, hdg, h])

/-- C10 witness: the number `1` decoded onto an Object node panics with
`ErrorMultipleType` and leaves the node intact. -/
theorem C10_scalar_onto_container_w :
    ((JSONNode.Map emptyNode "k").1.t = .typeMap ∨
      (JSONNode.Map emptyNode "k").1.t = .typeArray) ∧
    (JSONNode.Map emptyNode "k").1.dontGenerate = false ∧
    isScalar (.num 1) = true ∧
    UnmarshalJSON (JSONNode.Map emptyNode "k").1 (.num 1) =
      ((JSONNode.Map emptyNode "k").1, .error (.panicF .multipleType)) :=
  ⟨Or.inl (by simp [JSONNode.Map, emptyNode, lookupM]),
   by simp [JSONNode.Map, emptyNode, lookupM],
   rfl,
   C10_scalar_onto_container _ _ (Or.inl (by simp [JSONNode.Map, emptyNode, lookupM]))
     (by simp [JSONNode.Map, emptyNode, lookupM]) rfl⟩
theorem lookupM_isEmpty_false {m : List (String × JSONNode)} {k : String} {c : JSONNode}
    (h : lookupM m k = some c) : m.isEmpty = false := by
  cases m with
  | nil => simp [lookupM] at h
  | cons p rest => simp

/-- `Map` on an already-present key fails with `KeyAlreadyExists`. -/
theorem Map_key_present (n : JSONNode) (k : String) (c : JSONNode)
    (h1 : ¬(n.t ≠ .typeUndefined ∧ n.t ≠ .typeMap))
    (hk : lookupM n.m k = some c) :
    JSONNode.Map n k = (n, .error (.panicF .keyAlreadyExist)) := by
  rw [JSONNode.Map.eq_def]
  simp [h1, lookupM_isEmpty_false hk, hk]

/-- `Map` on an absent key appends a fresh child. -/
theorem Map_key_absent (n : JSONNode) (k : String)
    (h1 : ¬(n.t ≠ .typeUndefined ∧ n.t ≠ .typeMap))
    (hk : lookupM n.m k = none) :
    JSONNode.Map n k =
      ((if n.m.isEmpty then n.setT .typeMap else n).setM (n.m ++ [(k, emptyNode)]),
        .ok emptyNode) := by
  rw [JSONNode.Map.eq_def]
  by_cases he : n.m.isEmpty <;> simp [h1, he, hk]

/-- Single-key `At` navigation to an existing child returns it and only
rewrites the binding with the (unchanged) child. -/
theorem at_key_present (n : JSONNode) (k : String) (next : JSONNode)
    (h1 : ¬(n.t ≠ .typeUndefined ∧ n.t ≠ .typeMap))
    (hk : lookupM n.m k = some next) :
    At n [.str k] = (n.setM (updateM n.m k next), .ok next) := by
  rw [At, atMap]
  simp [h1, lookupM_isEmpty_false hk, hk]
  rw [At]
  exact ⟨rfl, rfl⟩

/-- Single-key `At` navigation to an absent key appends a fresh child and
returns it. -/
theorem at_key_absent (n : JSONNode) (k : String)
    (h1 : ¬(n.t ≠ .typeUndefined ∧ n.t ≠ .typeMap))
    (hk : lookupM n.m k = none) :
    At n [.str k] =
      ((if n.m.isEmpty then n.setT .typeMap else n).setM (n.m ++ [(k, emptyNode)]),
        .ok emptyNode) := by
  rw [At, atMap]
  by_cases he : n.m.isEmpty <;> simp [h1, he, hk] <;> (rw [At]; exact ⟨rfl, rfl⟩)

/-- C5: `Map(k)` a second time with the same key fails with
`KeyAlreadyExists` (the first call having succeeded), while `At(k)` with a
string key is idempotent: the second call returns the same child and
changes nothing. -/
theorem C5_map_strict_at_idempotent (n : JSONNode) (k : String) :
    (∀ c, (JSONNode.Map n k).2 = .ok c →
      (JSONNode.Map (JSONNode.Map n k).1 k).2 = .error (.panicF .keyAlreadyExist)) ∧
    (∀ c, (At n [.str k]).2 = .ok c →
      At (At n [.str k]).1 [.str k] = ((At n [.str k]).1, .ok c)) := by
  have hlkA : lookupM n.m k = none →
      lookupM (n.m ++ [(k, emptyNode)]) k = some emptyNode := fun hk =>
    lookupM_append _ _ _ hk
  constructor
  · intro c h
    by_cases h1 : n.t ≠ .typeUndefined ∧ n.t ≠ .typeMap
    · rw [JSONNode.Map.eq_def] at h
      simp [h1] at h
    · rcases hk : lookupM n.m k with _ | d
      · rw [Map_key_absent n k h1 hk]
        have h1' : ¬((((if n.m.isEmpty then n.setT .typeMap else n).setM
            (n.m ++ [(k, emptyNode)])).t ≠ .typeUndefined) ∧
            (((if n.m.isEmpty then n.setT .typeMap else n).setM
            (n.m ++ [(k, emptyNode)])).t ≠ .typeMap)) := by
          by_cases he : n.m.isEmpty <;> simp [he] <;> tauto
        rw [Map_key_present _ k emptyNode h1' (by simp [hlkA hk])]
      · rw [Map_key_present n k d h1 hk] at h
        simp at h
  · intro c h
    by_cases h1 : n.t ≠ .typeUndefined ∧ n.t ≠ .typeMap
    · rw [At, atMap] at h
      simp [h1] at h
    · rcases hk : lookupM n.m k with _ | next
      · rw [at_key_absent n k h1 hk] at h ⊢
        simp at h
        subst h
        have h1' : ¬((((if n.m.isEmpty then n.setT .typeMap else n).setM
            (n.m ++ [(k, emptyNode)])).t ≠ .typeUndefined) ∧
            (((if n.m.isEmpty then n.setT .typeMap else n).setM
            (n.m ++ [(k, emptyNode)])).t ≠ .typeMap)) := by
          by_cases he : n.m.isEmpty <;> simp [he] <;> tauto
        have hlk : lookupM ((if n.m.isEmpty then n.setT .typeMap else n).setM
            (n.m ++ [(k, emptyNode)])).m k = some emptyNode := by
          simp [hlkA hk]
        rw [at_key_present _ k emptyNode h1' hlk]
        simp only [m_setM] at hlk ⊢
        rw [updateM_self _ _ _ (hlkA hk)]
        simp
      · rw [at_key_present n k next h1 hk] at h ⊢
        simp at h
        subst h
        have hupd : updateM n.m k next = n.m := updateM_self _ _ _ hk
        rw [hupd, setM_self]
        rw [at_key_present n k next h1 hk, hupd, setM_self]

/-- C5 witness: on a fresh node, `Map("k")` succeeds once then fails with
`KeyAlreadyExists`, while `At("k")` twice returns the same child and leaves
the tree unchanged. -/
theorem C5_map_strict_at_idempotent_w :
    ((JSONNode.Map emptyNode "k").2 = .ok emptyNode ∧
      (JSONNode.Map (JSONNode.Map emptyNode "k").1 "k").2
        = .error (.panicF .keyAlreadyExist)) ∧
    ((At emptyNode [.str "k"]).2 = .ok emptyNode ∧
      At (At emptyNode [.str "k"]).1 [.str "k"]
        = ((At emptyNode [.str "k"]).1, .ok emptyNode)) :=
  ⟨⟨by simp [JSONNode.Map, emptyNode, lookupM],
    (C5_map_strict_at_idempotent emptyNode "k").1 emptyNode
      (by simp [JSONNode.Map, emptyNode, lookupM])⟩,
   ⟨by simp [At, atMap, emptyNode, lookupM],
    (C5_map_strict_at_idempotent emptyNode "k").2 emptyNode
      (by simp [At, atMap, emptyNode, lookupM])⟩⟩
/-- Kind order: a transition from `t₁` to `t₂` is legal when the node was
still Undefined or the kind did not change. -/
def kindLe (t₁ t₂ : NodeType) : Prop := t₁ = .typeUndefined ∨ t₂ = t₁

theorem kindLe_refl (t : NodeType) : kindLe t t := Or.inr rfl

theorem kindLe_trans {t₁ t₂ t₃ : NodeType} (h₁ : kindLe t₁ t₂) (h₂ : kindLe t₂ t₃) :
    kindLe t₁ t₃ := by
  rcases h₁ with h | h
  · exact Or.inl h
  · rcases h₂ with h' | h'
    · rw [h] at h'
      exact Or.inl h'
    · exact Or.inr (h ▸ h')

theorem at_t_mono (n : JSONNode) (steps : List Step) : kindLe n.t (At n steps).1.t := by
  cases steps with
  | nil => rw [At]; exact kindLe_refl _
  | cons s rest =>
    cases s with
    | str k =>
      rw [At, atMap]
      by_cases h1 : n.t ≠ .typeUndefined ∧ n.t ≠ .typeMap
      · simp [h1, kindLe_refl]
      · rcases hk : lookupM n.m k with _ | next <;>
          by_cases he : n.m.isEmpty <;>
          · simp [h1, he, hk, kindLe]
            all_goals (push_neg at h1; tauto)
    | idx i =>
      rw [At, atArray]
      by_cases h0 : n.t = .typeUndefined ∨ n.t = .typeArray
      · rcases h0 with h | h
        · by_cases hneg : i < 0 <;> simp [h, hneg, kindLe]
        · have hne : ¬ n.t = .typeUndefined := by rw [h]; simp
          by_cases hneg : i < 0 <;>
            by_cases hg : n.a.length ≤ i.toNat <;>
            simp [h, hne, hneg, hg, kindLe_refl]
      · simp [h0, kindLe_refl]
    | other => rw [At]; exact kindLe_refl _

theorem map_t_mono (n : JSONNode) (k : String) : kindLe n.t (JSONNode.Map n k).1.t := by
  rw [JSONNode.Map.eq_def]
  by_cases h1 : n.t ≠ .typeUndefined ∧ n.t ≠ .typeMap
  · simp [h1, kindLe_refl]
  · by_cases he : n.m.isEmpty <;>
      by_cases hk : (lookupM n.m k).isSome <;>
      · simp [h1, he, hk, kindLe]
        all_goals (push_neg at h1; tauto)

theorem array_t_mono (n : JSONNode) (size : Int) : kindLe n.t (JSONNode.Array n size).1.t := by
  rw [JSONNode.Array.eq_def]
  by_cases h0 : n.t = .typeUndefined ∨ n.t = .typeArray
  · rcases h0 with h | h
    · by_cases hneg : size < 0 <;> simp [h, hneg, kindLe]
    · have hne : ¬ n.t = .typeUndefined := by rw [h]; simp
      by_cases hneg : size < 0 <;> simp [h, hne, hneg, kindLe_refl]
  · simp [h0, kindLe_refl]

theorem val_t_mono (n : JSONNode) (val : Json) : kindLe n.t (JSONNode.Val n val).1.t := by
  rw [JSONNode.Val.eq_def]
  by_cases h0 : n.t = .typeUndefined
  · simp [h0, kindLe]
  · by_cases h1 : n.t = .typeValue <;> simp [h0, h1, kindLe_refl]

theorem unmFields_t_mono (fields : List (String × Json)) :
    ∀ n : JSONNode, kindLe n.t (unmFields n fields).1.t := by
  induction fields with
  | nil =>
    intro n
    rw [unmFields]
    exact kindLe_refl _
  | cons f rest ih =>
    intro n
    obtain ⟨k, jv⟩ := f
    rw [unmFields]
    rcases hk : lookupM n.m k with _ | child
    · simp only [hk]
      by_cases hdg : n.dontGenerate = false
      · rcases hm : JSONNode.Map n k with ⟨n₁, r⟩
        have hmono : kindLe n.t n₁.t := by
          have := map_t_mono n k
          rw [hm] at this
          exact this
        cases r with
        | error f => simp [hdg, hm, hmono]
        | ok child =>
          simp only [hdg, hm, if_true, Bool.false_eq_true, not_false_eq_true]
          rcases hr : (UnmarshalJSON child jv).2 with f | u
          · simp [hr]
            exact kindLe_trans hmono (by simp [kindLe_refl])
          · simp [hr]
            exact kindLe_trans hmono (by simpa using ih (n₁.setM (updateM n₁.m k (UnmarshalJSON child jv).1)))
      · simp only [hdg, if_false]
        simp at hdg
        simp [hdg]
        exact ih n
    · simp only [hk]
      rcases hr : (UnmarshalJSON child jv).2 with f | u
      · simp [hr, kindLe_refl]
      · simp [hr]
        exact kindLe_trans (kindLe_refl n.t)
          (by simpa using ih (n.setM (updateM n.m k (UnmarshalJSON child jv).1)))

theorem unmElems_t_mono (kk : Nat) :
    ∀ (n : JSONNode) (elems : List Json), kindLe n.t (unmElems n elems kk).1.t := by
  induction kk with
  | zero =>
    intro n elems
    rw [unmElems]
    exact kindLe_refl _
  | succ kk ih =>
    intro n elems
    rw [unmElems]
    by_cases hg : n.dontGenerate = false ∨ kk < n.a.length
    · rcases hA : At n [.idx (Int.ofNat kk)] with ⟨n₁, r⟩
      have hmono : kindLe n.t n₁.t := by
        have := at_t_mono n [.idx (Int.ofNat kk)]
        rw [hA] at this
        exact this
      cases r with
      | error f => simp [hg, hA, hmono]
      | ok leaf =>
        simp only [hg, hA, if_true]
        rcases hr : (UnmarshalJSON leaf (elems.getD kk .null)).2 with f | u
        · simp [hr]
          exact kindLe_trans hmono (by simp [kindLe_refl])
        · simp [hr]
          exact kindLe_trans hmono
            (by simpa using ih (n₁.setA (n₁.a.set kk (UnmarshalJSON leaf (elems.getD kk .null)).1)) elems)
    · simp [hg]
      exact ih n elems

theorem unmarshal_t_mono (n : JSONNode) (j : Json) :
    kindLe n.t (UnmarshalJSON n j).1.t := by
  by_cases hdg : n.dontGenerate = true ∧ n.t = .typeUndefined
  · rw [UnmarshalJSON.eq_def, if_pos hdg]
    exact val_t_mono n j
  · rw [UnmarshalJSON.eq_def, if_neg hdg]
    cases j with
    | obj fields =>
      show kindLe n.t
        (if n.t ≠ .typeMap ∧ n.t ≠ .typeUndefined then
          (n, Except.error (Failure.errF GoError.typeUnmarshaling))
        else unmFields n fields).1.t
      by_cases ht : n.t ≠ .typeMap ∧ n.t ≠ .typeUndefined
      · rw [if_pos ht]
        exact kindLe_refl _
      · rw [if_neg ht]
        exact unmFields_t_mono fields n
    | arr elems =>
      show kindLe n.t
        (if n.t ≠ .typeArray ∧ n.t ≠ .typeUndefined then
          (n, Except.error (Failure.errF GoError.typeUnmarshaling))
        else unmElems n elems elems.length).1.t
      by_cases ht : n.t ≠ .typeArray ∧ n.t ≠ .typeUndefined
      · rw [if_pos ht]
        exact kindLe_refl _
      · rw [if_neg ht]
        exact unmElems_t_mono elems.length n elems
    | null => exact val_t_mono n _
    | bool b => exact val_t_mono n _
    | num i => exact val_t_mono n _
    | str s => exact val_t_mono n _

theorem udg_t_eq (n : JSONNode) (val recurse : Bool) :
    (JSONNode.UnmarshalDontGenerate n val recurse).t = n.t := by
  cases n with
  | mk m a v t dg =>
    rw [JSONNode.UnmarshalDontGenerate.eq_def]
    cases recurse <;> cases t <;> simp

/-- C4: the node kind is monotonic under every operation.  `At`, `Map`,
`Array`, `Val` and `UnmarshalJSON` can move the kind only from Undefined to
a concrete kind and never change a committed concrete kind (`kindLe`);
`UnmarshalDontGenerate` never touches the kind; `Get` and `MarshalJSON`
take no state in the embedding (read-only in the source); the only way
back to Undefined is the explicit full reset `Unset`, which yields a fresh
zero-value node. -/
theorem C4_kind_monotonic (n : JSONNode) (steps : List Step) (key : String) (size : Int)
    (val : Json) (j : Json) (b r : Bool) :
    kindLe n.t (At n steps).1.t ∧
    kindLe n.t (JSONNode.Map n key).1.t ∧
    kindLe n.t (JSONNode.Array n size).1.t ∧
    kindLe n.t (JSONNode.Val n val).1.t ∧
    kindLe n.t (UnmarshalJSON n j).1.t ∧
    (JSONNode.UnmarshalDontGenerate n b r).t = n.t ∧
    JSONNode.Unset n = emptyNode :=
  ⟨at_t_mono n steps, map_t_mono n key, array_t_mono n size, val_t_mono n val,
   unmarshal_t_mono n j, udg_t_eq n b r, rfl⟩

theorem attach_all_eq {α} (l : List α) (p : α → Bool) :
    (l.attach.all fun x => p x.1) = l.all p := by
  rw [Bool.eq_iff_iff, List.all_eq_true, List.all_eq_true]
  constructor
  · intro h x hx
    exact h ⟨x, hx⟩ (List.mem_attach _ _)
  · intro h x _
    exact h x.1 x.2

theorem MarshalJSON_map (m a v dg) :
    JSONNode.MarshalJSON (.mk m a v .typeMap dg) = .obj (m.map fun y => (y.1, y.2.MarshalJSON)) := by
  rw [JSONNode.MarshalJSON.eq_def]
  simp only []
  rw [List.attach_map_val m (fun y => (y.1, y.2.MarshalJSON))]

theorem MarshalJSON_arr (m a v dg) :
    JSONNode.MarshalJSON (.mk m a v .typeArray dg) = .arr (a.map JSONNode.MarshalJSON) := by
  rw [JSONNode.MarshalJSON.eq_def]
  simp only []
  rw [List.attach_map_val a JSONNode.MarshalJSON]

theorem MarshalJSON_val (m a v dg) :
    JSONNode.MarshalJSON (.mk m a v .typeValue dg) = v := by
  rw [JSONNode.MarshalJSON.eq_def]

theorem MarshalJSON_und (m a v dg) :
    JSONNode.MarshalJSON (.mk m a v .typeUndefined dg) = .null := by
  rw [JSONNode.MarshalJSON.eq_def]

theorem canon_map (m a v dg) :
    canon (.mk m a v .typeMap dg) = .mk (m.map fun y => (y.1, canon y.2)) [] .null .typeMap false := by
  rw [canon.eq_def]
  simp only []
  rw [List.attach_map_val m (fun y => (y.1, canon y.2))]

theorem canon_arr (m a v dg) :
    canon (.mk m a v .typeArray dg) = .mk [] (a.map canon) .null .typeArray false := by
  rw [canon.eq_def]
  simp only []
  rw [List.attach_map_val a canon]

theorem canon_val (m a v dg) :
    canon (.mk m a v .typeValue dg) = .mk [] [] v .typeValue false := by
  rw [canon.eq_def]

theorem builtTree_map (m a v dg) :
    builtTree (.mk m a v .typeMap dg)
      = (!m.isEmpty && keysNodupB m && m.all fun y => builtTree y.2) := by
  rw [builtTree.eq_def]
  simp only []
  rw [attach_all_eq m (fun y => builtTree y.2)]

theorem builtTree_arr (m a v dg) :
    builtTree (.mk m a v .typeArray dg) = (!a.isEmpty && a.all builtTree) := by
  rw [builtTree.eq_def]
  simp only []
  rw [attach_all_eq a builtTree]

theorem builtTree_val (m a v dg) :
    builtTree (.mk m a v .typeValue dg) = isScalar v := by
  rw [builtTree.eq_def]

theorem builtTree_und (m a v dg) :
    builtTree (.mk m a v .typeUndefined dg) = false := by
  rw [builtTree.eq_def]

theorem lookupM_map_val (m : List (String × JSONNode)) (f : JSONNode → JSONNode) (k : String) :
    lookupM (m.map fun y => (y.1, f y.2)) k = (lookupM m k).map f := by
  induction m with
  | nil => simp [lookupM]
  | cons p rest ih =>
    obtain ⟨k', c⟩ := p
    by_cases hk : k' = k <;> simp [lookupM, hk, ih]

theorem keysNodupB_map_val (m : List (String × JSONNode)) (f : JSONNode → JSONNode) :
    keysNodupB (m.map fun y => (y.1, f y.2)) = keysNodupB m := by
  induction m with
  | nil => simp [keysNodupB]
  | cons p rest ih =>
    obtain ⟨k', c⟩ := p
    simp [keysNodupB, ih, List.all_map]
    rfl

theorem lookupM_of_mem_nodup {m : List (String × JSONNode)} {x : String × JSONNode}
    (hnd : keysNodupB m = true) (hx : x ∈ m) : lookupM m x.1 = some x.2 := by
  induction m with
  | nil => simp at hx
  | cons p rest ih =>
    obtain ⟨k', c⟩ := p
    simp only [keysNodupB, Bool.and_eq_true, List.all_eq_true] at hnd
    rcases List.mem_cons.mp hx with h | h
    · subst h
      simp [lookupM]
    · have hne : k' ≠ x.1 := by
        have := hnd.1 x h
        simpa using this
      simp [lookupM, hne, ih hnd.2 h]

theorem lookupM_append_none {m : List (String × JSONNode)} {k k' : String} {c : JSONNode}
    (h : lookupM m k = none) (hne : k' ≠ k) :
    lookupM (m ++ [(k', c)]) k = none := by
  induction m with
  | nil => simp [lookupM, hne]
  | cons p rest ih =>
    obtain ⟨k₀, c₀⟩ := p
    by_cases hk : k₀ = k
    · simp [lookupM, hk] at h
    · simp [lookupM, hk] at h ⊢
      exact ih h

theorem getD_set_ne {α} (l : List α) (i j : Nat) (x d : α) (hne : j ≠ i) :
    (l.set i x).getD j d = l.getD j d := by
  simp [List.getD_eq_getElem?_getD, List.getElem?_set_ne (Ne.symm hne)]

/-- In-bounds single-index `At` on an Array node is the identity and
returns the element. -/
theorem at_idx_inbounds (n : JSONNode) (i : Nat)
    (ht : n.t = .typeArray) (hlen : i < n.a.length) :
    At n [.idx (Int.ofNat i)] = (n, .ok (n.a.getD i emptyNode)) := by
  rw [At, atArray]
  rw [show Int.ofNat i = (i : Int) from rfl]
  have h0 : ¬ ((i : Int) < 0) := by omega
  have hne : ¬ n.t = .typeUndefined := by rw [ht]; simp
  have hg : ¬ n.a.length ≤ i := by omega
  simp only [ht, hne, h0, hg, if_false, if_true, or_true, Int.toNat_natCast]
  rw [At]
  simp [hg, ← List.getD_eq_getElem?_getD, set_getD_self n.a i emptyNode hlen]

/-- Single-index `At` on a fresh node grows the array to `i+1` fresh slots. -/
theorem at_fresh_grow (i : Nat) :
    At emptyNode [.idx (Int.ofNat i)] =
      ((emptyNode.setT .typeArray).setA (List.replicate (i + 1) emptyNode), .ok emptyNode) := by
  rw [At, atArray]
  rw [show Int.ofNat i = (i : Int) from rfl]
  have h0 : ¬ ((i : Int) < 0) := by omega
  simp only [emptyNode, t_mk, if_true, Int.toNat_natCast, a_mk, setT_mk, setA_mk,
    List.length_nil, Nat.zero_le, List.nil_append, if_pos, h0, if_false, or_true, true_or,
    Nat.sub_zero]
  rw [At]
  have hrep : (List.replicate (i + 1) (JSONNode.mk [] [] Json.null NodeType.typeUndefined false)).getD i
      (JSONNode.mk [] [] Json.null NodeType.typeUndefined false)
        = JSONNode.mk [] [] Json.null NodeType.typeUndefined false := by
    simp [List.getD_eq_getElem?_getD, List.getElem?_replicate]
  simp [← List.getD_eq_getElem?_getD, hrep, List.set_replicate_self]

theorem jsonBeqList_refl (l : List Json) (ih : ∀ x ∈ l, jsonBeq x x = true) :
    jsonBeqList l l = true := by
  induction l with
  | nil => rw [jsonBeqList]
  | cons x xs ihl =>
    rw [jsonBeqList]
    simp only [Bool.and_eq_true]
    exact ⟨ih x (by simp), ihl fun y hy => ih y (by simp [hy])⟩

theorem jsonBeqObj_refl (f : List (String × Json)) (ih : ∀ x ∈ f, jsonBeq x.2 x.2 = true) :
    jsonBeqObj f f = true := by
  induction f with
  | nil => rw [jsonBeqObj]
  | cons x xs ihl =>
    obtain ⟨k, v⟩ := x
    rw [jsonBeqObj]
    simp only [Bool.and_eq_true]
    exact ⟨⟨by simp, ih (k, v) (by simp)⟩, ihl fun y hy => ih y (by simp [hy])⟩

theorem jsonBeq_refl (j : Json) : jsonBeq j j = true := by
  induction j using jsonInduct with
  | hnull => rw [jsonBeq]
  | hbool b => rw [jsonBeq]; simp
  | hnum i => rw [jsonBeq]; simp
  | hstr s => rw [jsonBeq]; simp
  | harr l ih => rw [jsonBeq]; exact jsonBeqList_refl l ih
  | hobj f ih => rw [jsonBeq]; exact jsonBeqObj_refl f ih

theorem equivShape_mk_val (m₁ a₁ v₁ dg₁ m₂ a₂ v₂ dg₂) :
    equivShape (.mk m₁ a₁ v₁ .typeValue dg₁) (.mk m₂ a₂ v₂ .typeValue dg₂)
      = jsonBeq v₁ v₂ := by
  rw [equivShape.eq_def]

theorem equivShape_mk_arr (m₁ a₁ v₁ dg₁ m₂ a₂ v₂ dg₂) :
    equivShape (.mk m₁ a₁ v₁ .typeArray dg₁) (.mk m₂ a₂ v₂ .typeArray dg₂)
      = (a₁.length == a₂.length && (a₁.zip a₂).all fun x => equivShape x.1 x.2) := by
  rw [equivShape.eq_def]
  simp only []
  rw [attach_all_eq (a₁.zip a₂) (fun x => equivShape x.1 x.2)]

theorem equivShape_mk_map (m₁ a₁ v₁ dg₁ m₂ a₂ v₂ dg₂) :
    equivShape (.mk m₁ a₁ v₁ .typeMap dg₁) (.mk m₂ a₂ v₂ .typeMap dg₂)
      = ((m₂.all fun y => (lookupM m₁ y.1).isSome) &&
          m₁.all fun x =>
            match lookupM m₂ x.1 with
            | some c₂ => equivShape x.2 c₂
            | none => false) := by
  rw [equivShape.eq_def]
  simp only []
  rw [attach_all_eq m₁ (fun x => match lookupM m₂ x.1 with
    | some c₂ => equivShape x.2 c₂
    | none => false)]

/-- A built tree is shape-equivalent to its canonical rebuild. -/
theorem equivShape_canon (n : JSONNode) (h : builtTree n = true) :
    equivShape n (canon n) = true := by
  induction n using nodeInduct with
  | h m a v t dg ihm iha =>
    cases t with
    | typeUndefined => rw [builtTree_und] at h; exact absurd h (by simp)
    | typeValue =>
      rw [canon_val, equivShape_mk_val]
      exact jsonBeq_refl v
    | typeMap =>
      rw [builtTree_map] at h
      simp only [Bool.and_eq_true, List.all_eq_true] at h
      obtain ⟨⟨hne, hnd⟩, hch⟩ := h
      rw [canon_map, equivShape_mk_map]
      simp only [Bool.and_eq_true, List.all_eq_true]
      constructor
      · intro y hy
        obtain ⟨x, hx, hxy⟩ := List.mem_map.mp hy
        rw [← hxy]
        simp [lookupM_of_mem_nodup hnd hx]
      · intro x hx
        rw [lookupM_map_val, lookupM_of_mem_nodup hnd hx]
        exact ihm x hx (hch x hx)
    | typeArray =>
      rw [builtTree_arr] at h
      simp only [Bool.and_eq_true, List.all_eq_true] at h
      obtain ⟨hne, hch⟩ := h
      rw [canon_arr, equivShape_mk_arr]
      simp only [Bool.and_eq_true]
      constructor
      · simp
      · have hz : a.zip (a.map canon) = a.map fun x => (x, canon x) := by
          have := List.zip_map' id canon a
          simpa using this
        rw [hz, List.all_eq_true]
        intro p hp
        obtain ⟨x, hx, hxp⟩ := List.mem_map.mp hp
        rw [← hxp]
        exact iha x hx (hch x hx)

/-- The canonical rebuild of a built tree is itself built. -/
theorem canon_builtTree (n : JSONNode) (h : builtTree n = true) :
    builtTree (canon n) = true := by
  induction n using nodeInduct with
  | h m a v t dg ihm iha =>
    cases t with
    | typeUndefined => rw [builtTree_und] at h; exact absurd h (by simp)
    | typeValue =>
      rw [builtTree_val] at h
      rw [canon_val, builtTree_val]
      exact h
    | typeMap =>
      rw [builtTree_map] at h
      simp only [Bool.and_eq_true, List.all_eq_true] at h
      obtain ⟨⟨hne, hnd⟩, hch⟩ := h
      rw [canon_map, builtTree_map]
      simp only [Bool.and_eq_true, List.all_eq_true]
      refine ⟨⟨?_, ?_⟩, ?_⟩
      · simpa using hne
      · rw [keysNodupB_map_val]
        exact hnd
      · intro y hy
        obtain ⟨x, hx, hxy⟩ := List.mem_map.mp hy
        rw [← hxy]
        exact ihm x hx (hch x hx)
    | typeArray =>
      rw [builtTree_arr] at h
      simp only [Bool.and_eq_true, List.all_eq_true] at h
      obtain ⟨hne, hch⟩ := h
      rw [canon_arr, builtTree_arr]
      simp only [Bool.and_eq_true, List.all_eq_true]
      refine ⟨by simpa using hne, ?_⟩
      intro y hy
      obtain ⟨x, hx, hxy⟩ := List.mem_map.mp hy
      rw [← hxy]
      exact iha x hx (hch x hx)

/-- Canonical rebuilding is idempotent on built trees. -/
theorem canon_idem (n : JSONNode) (h : builtTree n = true) :
    canon (canon n) = canon n := by
  induction n using nodeInduct with
  | h m a v t dg ihm iha =>
    cases t with
    | typeUndefined => rw [builtTree_und] at h; exact absurd h (by simp)
    | typeValue => rw [canon_val, canon_val]
    | typeMap =>
      rw [builtTree_map] at h
      simp only [Bool.and_eq_true, List.all_eq_true] at h
      obtain ⟨⟨hne, hnd⟩, hch⟩ := h
      rw [canon_map, canon_map]
      simp only [List.map_map]
      congr 1
      apply List.map_congr_left
      intro x hx
      simp [Function.comp, ihm x hx (hch x hx)]
    | typeArray =>
      rw [builtTree_arr] at h
      simp only [Bool.and_eq_true, List.all_eq_true] at h
      obtain ⟨hne, hch⟩ := h
      rw [canon_arr, canon_arr]
      simp only [List.map_map]
      congr 1
      apply List.map_congr_left
      intro x hx
      simp [Function.comp, iha x hx (hch x hx)]

theorem setT_self (n : JSONNode) (t' : NodeType) (h : n.t = t') : n.setT t' = n := by
  cases n with
  | mk m a v t dg =>
    simp only [t_mk] at h
    simp [h]

theorem MarshalJSON_empty : JSONNode.MarshalJSON emptyNode = .null := by
  rw [emptyNode, MarshalJSON_und]

/-- The `for i := len(tmp)-1; i >= 0; i--` decode loop over an array node
whose first `kk` slots are still fresh writes the canonical decode of each
document into its slot and leaves the rest alone. -/
theorem unmElems_gen (children : List JSONNode) (kk : Nat) :
    ∀ n : JSONNode, n.dontGenerate = false → n.t = .typeArray →
    n.a.length = children.length → kk ≤ children.length →
    (∀ i, i < kk → n.a.getD i emptyNode = emptyNode) →
    (∀ c ∈ children, UnmarshalJSON emptyNode (JSONNode.MarshalJSON c) = (canon c, .ok ())) →
    unmElems n (children.map JSONNode.MarshalJSON) kk =
      (n.setA (((children.take kk).map canon) ++ n.a.drop kk), .ok ()) := by
  induction kk with
  | zero =>
    intro n _ _ _ _ _ _
    rw [unmElems]
    simp
  | succ kk ih =>
    intro n hdg ht hlen hkk hslots hdec
    have hklen : kk < children.length := by omega
    have hka : kk < n.a.length := by omega
    rw [unmElems]
    have hA : At n [.idx (Int.ofNat kk)] = (n, .ok emptyNode) := by
      rw [at_idx_inbounds n kk ht hka, hslots kk (by omega)]
    have hgetD : (children.map JSONNode.MarshalJSON).getD kk .null
        = JSONNode.MarshalJSON (children.getD kk emptyNode) := by
      rw [← MarshalJSON_empty, List.getD_map]
    have hmem : children.getD kk emptyNode ∈ children := by
      rw [List.getD_eq_getElem children emptyNode hklen]
      exact List.getElem_mem hklen
    have hdk := hdec _ hmem
    simp only [hdg, hA, hgetD, hdk, if_true, Bool.false_eq_true, false_or, true_or, if_pos]
    have iha := ih (n.setA (n.a.set kk (canon (children.getD kk emptyNode))))
      (by simp [hdg]) (by simp [ht]) (by simp [hlen]) (by omega)
      (by
        intro i hi
        simp only [a_setA]
        rw [getD_set_ne _ _ _ _ _ (by omega)]
        exact hslots i (by omega))
      hdec
    rw [iha]
    simp only [setA_setA, a_setA]
    rw [drop_set_cons _ _ _ hka]
    have htake : children.take (kk + 1) = children.take kk ++ [children.getD kk emptyNode] := by
      rw [List.take_succ]
      simp [List.getElem?_eq_getElem hklen]
    rw [htake, List.map_append]
    simp

/-- The `for k := range tmp` decode loop over an object node that lacks all
the incoming keys creates each child via `Map` and fills it with its
canonical decode, appending in input order. -/
theorem unmFields_gen (children : List (String × JSONNode)) :
    ∀ n : JSONNode, n.dontGenerate = false →
    (n.t = .typeMap ∨ (n.t = .typeUndefined ∧ n.m = [])) →
    (∀ x ∈ children, lookupM n.m x.1 = none) →
    keysNodupB children = true →
    (∀ x ∈ children, UnmarshalJSON emptyNode (JSONNode.MarshalJSON x.2) = (canon x.2, .ok ())) →
    unmFields n (children.map fun y => (y.1, JSONNode.MarshalJSON y.2)) =
      ((if children.isEmpty then n
        else (n.setT .typeMap).setM (n.m ++ children.map fun y => (y.1, canon y.2))), .ok ()) := by
  induction children with
  | nil =>
    intro n _ _ _ _ _
    rw [List.map_nil, unmFields]
    simp
  | cons c rest ih =>
    intro n hdg hdisj hlk hnd hdec
    obtain ⟨k, child⟩ := c
    rw [List.map_cons, unmFields]
    have hk : lookupM n.m k = none := hlk (k, child) (by simp)
    have hT : ¬(n.t ≠ .typeUndefined ∧ n.t ≠ .typeMap) := by
      rcases hdisj with h | h
      · simp [h]
      · simp [h.1]
    have hif : (if n.m.isEmpty then n.setT .typeMap else n) = n.setT .typeMap := by
      rcases hdisj with h | h
      · by_cases he : n.m.isEmpty
        · simp [he]
        · simp [he, setT_self n .typeMap h]
      · simp [h.2]
    have hMap : JSONNode.Map n k
        = ((n.setT .typeMap).setM (n.m ++ [(k, emptyNode)]), .ok emptyNode) := by
      rw [Map_key_absent n k hT hk, hif]
    have hd : UnmarshalJSON emptyNode (JSONNode.MarshalJSON child) = (canon child, .ok ()) :=
      hdec (k, child) (by simp)
    simp only [hk, hdg, hMap, hd, if_pos, Bool.false_eq_true, if_true]
    have hupd : updateM (((n.setT .typeMap).setM (n.m ++ [(k, emptyNode)])).m) k (canon child)
        = n.m ++ [(k, canon child)] := by
      simp only [m_setM]
      exact updateM_append n.m k emptyNode (canon child) hk
    simp only [keysNodupB, Bool.and_eq_true, List.all_eq_true] at hnd
    have iha := ih ((n.setT .typeMap).setM (n.m ++ [(k, canon child)]))
      (by simp [hdg])
      (Or.inl (by simp))
      (by
        intro x hx
        simp only [m_setM]
        refine lookupM_append_none (hlk x (by simp [hx])) ?_
        have := hnd.1 x hx
        simpa using this)
      hnd.2
      (fun x hx => hdec x (by simp [hx]))
    rw [hupd, setM_setM, iha]
    cases rest with
    | nil => simp
    | cons r rs =>
      simp only [List.isEmpty_cons, if_false, Bool.false_eq_true]
      rw [setT_self _ .typeMap (by simp), setM_setM]
      simp


@[simp] theorem emptyNode_m : emptyNode.m = [] := rfl

@[simp] theorem emptyNode_a : emptyNode.a = [] := rfl

@[simp] theorem emptyNode_v : emptyNode.v = .null := rfl

@[simp] theorem emptyNode_t : emptyNode.t = .typeUndefined := rfl

@[simp] theorem emptyNode_dg : emptyNode.dontGenerate = false := rfl

/-- Decoding the encoding of a built tree into a fresh node succeeds and
produces exactly the canonical rebuild. -/
theorem roundtrip (n : JSONNode) (h : builtTree n = true) :
    UnmarshalJSON emptyNode (JSONNode.MarshalJSON n) = (canon n, .ok ()) := by
  induction n using nodeInduct with
  | h m a v t dg ihm iha =>
    cases t with
    | typeUndefined => rw [builtTree_und] at h; exact absurd h (by simp)
    | typeValue =>
      rw [builtTree_val] at h
      rw [MarshalJSON_val, canon_val]
      cases v with
      | obj f => simp [isScalar] at h
      | arr l => simp [isScalar] at h
      | null => rw [UnmarshalJSON.eq_def]; simp [emptyNode, JSONNode.Val]
      | bool b => rw [UnmarshalJSON.eq_def]; simp [emptyNode, JSONNode.Val]
      | num i => rw [UnmarshalJSON.eq_def]; simp [emptyNode, JSONNode.Val]
      | str s => rw [UnmarshalJSON.eq_def]; simp [emptyNode, JSONNode.Val]
    | typeMap =>
      rw [builtTree_map] at h
      simp only [Bool.and_eq_true, List.all_eq_true] at h
      obtain ⟨⟨hne, hnd⟩, hch⟩ := h
      rw [MarshalJSON_map, canon_map]
      rw [show UnmarshalJSON emptyNode (.obj (m.map fun y => (y.1, y.2.MarshalJSON)))
          = unmFields emptyNode (m.map fun y => (y.1, y.2.MarshalJSON)) from by
        rw [UnmarshalJSON.eq_def]
        simp [emptyNode]]
      rw [unmFields_gen m emptyNode rfl (Or.inr ⟨rfl, rfl⟩)
        (by intro x hx; simp [emptyNode, lookupM]) hnd
        (fun x hx => ihm x hx (hch x hx))]
      have hme : m.isEmpty = false := by
        cases m
        · simp at hne
        · simp
      simp [hme, emptyNode]
    | typeArray =>
      rw [builtTree_arr] at h
      simp only [Bool.and_eq_true, List.all_eq_true] at h
      obtain ⟨hne, hch⟩ := h
      rw [MarshalJSON_arr, canon_arr]
      rw [show UnmarshalJSON emptyNode (.arr (a.map JSONNode.MarshalJSON))
          = unmElems emptyNode (a.map JSONNode.MarshalJSON) (a.map JSONNode.MarshalJSON).length
        from by
          rw [UnmarshalJSON.eq_def]
          simp [emptyNode]]
      obtain ⟨L, hL⟩ : ∃ L, a.length = L + 1 := by
        cases a
        · simp at hne
        · exact ⟨_, rfl⟩
      rw [List.length_map, hL, unmElems]
      have hLa : L < a.length := by omega
      have hgetD : (a.map JSONNode.MarshalJSON).getD L .null
          = JSONNode.MarshalJSON (a.getD L emptyNode) := by
        rw [← MarshalJSON_empty, List.getD_map]
      have hmem : a.getD L emptyNode ∈ a := by
        rw [List.getD_eq_getElem a emptyNode hLa]
        exact List.getElem_mem hLa
      have hdL := iha _ hmem (hch _ hmem)
      simp only [at_fresh_grow L, hgetD, hdL, emptyNode_dg, Bool.false_eq_true, false_or,
        true_or, if_true, a_setA, setA_setA]
      have hgen := unmElems_gen a L
        ((emptyNode.setT .typeArray).setA
          ((List.replicate (L + 1) emptyNode).set L (canon (a.getD L emptyNode))))
        (by simp) (by simp) (by simp [hL]) (by omega)
        (by
          intro i hi
          simp only [a_setA]
          rw [getD_set_ne _ _ _ _ _ (by omega)]
          have hi1 : i < L + 1 := by omega
          simp [List.getD_eq_getElem?_getD, List.getElem?_replicate, hi1])
        (fun c hc => iha c hc (hch c hc))
      rw [hgen, setA_setA, a_setA]
      have hdrop : ((List.replicate (L + 1) emptyNode).set L
          (canon (a.getD L emptyNode))).drop L = [canon (a.getD L emptyNode)] := by
        rw [drop_set_cons _ _ _ (by simp)]
        simp
      rw [hdrop]
      have htake : (a.take L).map canon ++ [canon (a.getD L emptyNode)] = a.map canon := by
        have h1 : a.take (L + 1) = a.take L ++ [a.getD L emptyNode] := by
          rw [List.take_succ]
          simp [List.getElem?_eq_getElem hLa]
        have h2 : a.take (L + 1) = a := by
          rw [← hL]
          simp
        calc (a.take L).map canon ++ [canon (a.getD L emptyNode)]
            = ((a.take L) ++ [a.getD L emptyNode]).map canon := by simp
          _ = (a.take (L + 1)).map canon := by rw [h1]
          _ = a.map canon := by rw [h2]
      rw [htake]
      simp [emptyNode]

/-- C7 (amended): for every tree built from object/array structure and
scalar `Val` assignments in which every array is non-empty and every leaf
is an assigned scalar Value node (`builtTree`), encoding and decoding into
a fresh node succeeds and reproduces an equivalent shape — same object
keys, same array lengths, equal scalar payloads — and a second
encode/decode cycle reproduces an equivalent tree again. -/
theorem C7_roundtrip_equiv_shape (n : JSONNode) (h : builtTree n = true) :
    (UnmarshalJSON emptyNode (JSONNode.MarshalJSON n)).2 = .ok () ∧
    equivShape n (UnmarshalJSON emptyNode (JSONNode.MarshalJSON n)).1 = true ∧
    (UnmarshalJSON emptyNode (JSONNode.MarshalJSON
      (UnmarshalJSON emptyNode (JSONNode.MarshalJSON n)).1)).2 = .ok () ∧
    equivShape (UnmarshalJSON emptyNode (JSONNode.MarshalJSON n)).1
      (UnmarshalJSON emptyNode (JSONNode.MarshalJSON
        (UnmarshalJSON emptyNode (JSONNode.MarshalJSON n)).1)).1 = true := by
  have h1 := roundtrip n h
  have hb := canon_builtTree n h
  have h2 := roundtrip (canon n) hb
  rw [h1]
  refine ⟨rfl, equivShape_canon n h, ?_, ?_⟩
  · rw [h2]
  · rw [h2]
    show equivShape (canon n) (canon (canon n)) = true
    have h3 := equivShape_canon (canon n) hb
    rw [canon_idem n h] at h3
    rw [canon_idem n h]
    exact h3

/-- C7 counterexample: the claim fails as stated for the tree produced by
`Array(0)` on a fresh node — a legal build via the listed operations.  It
encodes to `[]`, but decoding `[]` into a fresh node is a no-op that
leaves the node Undefined (the loop body never runs and the kind is never
committed), so the decoded tree is not an Array and the array length is
not reproduced. -/
theorem C7_empty_array_roundtrip_fails :
    (JSONNode.Array emptyNode 0).2 = .ok () ∧
    (JSONNode.Array emptyNode 0).1.t = .typeArray ∧
    (JSONNode.Array emptyNode 0).1.a.length = 0 ∧
    JSONNode.MarshalJSON (JSONNode.Array emptyNode 0).1 = .arr [] ∧
    (UnmarshalJSON emptyNode (.arr [])).2 = .ok () ∧
    (UnmarshalJSON emptyNode (.arr [])).1.t = .typeUndefined ∧
    equivShape (JSONNode.Array emptyNode 0).1
      (UnmarshalJSON emptyNode (JSONNode.MarshalJSON (JSONNode.Array emptyNode 0).1)).1
      = false := by
  refine ⟨?_, ?_, ?_, ?_, ?_, ?_, ?_⟩ <;>
    simp [UnmarshalJSON, unmElems, unmFields, JSONNode.Array, JSONNode.MarshalJSON,
      equivShape, emptyNode]

/-- C7 witness: the round trip at the concrete tree `{"a": [1, "x"], "b": true}`. -/
theorem C7_roundtrip_equiv_shape_w :
    builtTree (JSONNode.mk
      [("a", JSONNode.mk []
          [JSONNode.mk [] [] (.num 1) .typeValue false,
           JSONNode.mk [] [] (.str "x") .typeValue false] .null .typeArray false),
       ("b", JSONNode.mk [] [] (.bool true) .typeValue false)]
      [] .null .typeMap false) = true ∧
    ((UnmarshalJSON emptyNode (JSONNode.MarshalJSON (JSONNode.mk
      [("a", JSONNode.mk []
          [JSONNode.mk [] [] (.num 1) .typeValue false,
           JSONNode.mk [] [] (.str "x") .typeValue false] .null .typeArray false),
       ("b", JSONNode.mk [] [] (.bool true) .typeValue false)]
      [] .null .typeMap false))).2 = .ok () ∧
    equivShape (JSONNode.mk
      [("a", JSONNode.mk []
          [JSONNode.mk [] [] (.num 1) .typeValue false,
           JSONNode.mk [] [] (.str "x") .typeValue false] .null .typeArray false),
       ("b", JSONNode.mk [] [] (.bool true) .typeValue false)]
      [] .null .typeMap false)
      (UnmarshalJSON emptyNode (JSONNode.MarshalJSON (JSONNode.mk
      [("a", JSONNode.mk []
          [JSONNode.mk [] [] (.num 1) .typeValue false,
           JSONNode.mk [] [] (.str "x") .typeValue false] .null .typeArray false),
       ("b", JSONNode.mk [] [] (.bool true) .typeValue false)]
      [] .null .typeMap false))).1 = true ∧
    (UnmarshalJSON emptyNode (JSONNode.MarshalJSON
      (UnmarshalJSON emptyNode (JSONNode.MarshalJSON (JSONNode.mk
      [("a", JSONNode.mk []
          [JSONNode.mk [] [] (.num 1) .typeValue false,
           JSONNode.mk [] [] (.str "x") .typeValue false] .null .typeArray false),
       ("b", JSONNode.mk [] [] (.bool true) .typeValue false)]
      [] .null .typeMap false))).1)).2 = .ok () ∧
    equivShape (UnmarshalJSON emptyNode (JSONNode.MarshalJSON (JSONNode.mk
      [("a", JSONNode.mk []
          [JSONNode.mk [] [] (.num 1) .typeValue false,
           JSONNode.mk [] [] (.str "x") .typeValue false] .null .typeArray false),
       ("b", JSONNode.mk [] [] (.bool true) .typeValue false)]
      [] .null .typeMap false))).1
      (UnmarshalJSON emptyNode (JSONNode.MarshalJSON
        (UnmarshalJSON emptyNode (JSONNode.MarshalJSON (JSONNode.mk
      [("a", JSONNode.mk []
          [JSONNode.mk [] [] (.num 1) .typeValue false,
           JSONNode.mk [] [] (.str "x") .typeValue false] .null .typeArray false),
       ("b", JSONNode.mk [] [] (.bool true) .typeValue false)]
      [] .null .typeMap false))).1)).1 = true) :=
  ⟨by simp [builtTree, keysNodupB, isScalar],
   C7_roundtrip_equiv_shape _ (by simp [builtTree, keysNodupB, isScalar])⟩
